import Mathlib

/-!
Verification of the Heisenberg-model energy and estimator core of the
`spyns` Monte Carlo package (src/spyns/model/heisenberg.py), against its
natural-language specification.

The numpy code is shallowly embedded over exact rationals: a per-site
spin component array becomes a `List ℚ`, a numpy scalar read `a[i]`
becomes `List.getD a i 0` (the happy-path embedding used for the
in-range algebraic claims), a slice `a[s:e]` becomes
`(a.drop s).take (e - s)`, boolean-mask selection becomes a `filter`
over a `zip`, and the elementwise arithmetic of `numpy` arrays becomes
`List.zipWith` / `List.map`.  The trigonometric state sampler is
embedded separately over `ℝ`, and Python/numpy indexing semantics
(negative wrap-around, `IndexError` as `Option.none`) are embedded
separately for the out-of-range-behaviour claim.
-/

namespace Spyns

/-- A three-component spin vector; the embedding of a length-3
`np.ndarray` such as the one built by `get_site_spin_vector`
(components `[0]`, `[1]`, `[2]` become fields `x`, `y`, `z`). -/
structure Vec3 where
  x : ℚ
  y : ℚ
  z : ℚ
deriving DecidableEq, Repr

/-- Modelled from the spec (§3 SpinState, Heisenberg variant) and the
field accesses in heisenberg.py: `spyns.data.HeisenbergState` is not
under src/, but its shape (one array per spatial component) is fixed by
the spec and by every use in heisenberg.py. -/
structure HeisenbergState where
  x : List ℚ
  y : List ℚ
  z : List ℚ
deriving DecidableEq, Repr

/-- Modelled from the spec (§3 LookupTables) and the field accesses in
heisenberg.py: the flattened CSR-style neighbor tables. -/
structure LookupTables where
  number_sites : ℕ
  number_sublattices : ℕ
  sublattice_table : List ℕ
  neighbors_count : List ℕ
  neighbors_lookup_index : List ℕ
  neighbors_table : List ℕ
  interaction_parameters_table : List ℚ
deriving DecidableEq, Repr

/-- Modelled from the spec (§3 Estimators) and the writes in
`save_full_state`: the per-run estimator container. -/
structure Estimators where
  energy : List ℚ
  spin_vector : List Vec3
deriving DecidableEq, Repr

/-- Modelled from the spec and the field accesses in heisenberg.py:
`spyns.data.SimulationData` bundles the spin state, the lookup tables
and the estimators. -/
structure SimulationData where
  state : HeisenbergState
  lookup_tables : LookupTables
  estimators : Estimators
deriving DecidableEq, Repr

/-- Embedding of the `NeighborStates` dataclass of heisenberg.py. -/
structure NeighborStates where
  x : List ℚ
  y : List ℚ
  z : List ℚ
  interaction_parameters : List ℚ
deriving DecidableEq, Repr

/-- Embedding of `lookup_neighbor_states` (heisenberg.py lines 136-163):
slice `neighbors_table` and `interaction_parameters_table` on
`[lookup_start, lookup_start + neighbors_count)` and gather the spin
components of the listed neighbor sites. -/
def lookup_neighbor_states (site_index : ℕ) (data : SimulationData) : NeighborStates :=
  let cnt := data.lookup_tables.neighbors_count.getD site_index 0
  let start := data.lookup_tables.neighbors_lookup_index.getD site_index 0
  let idxs := (data.lookup_tables.neighbors_table.drop start).take cnt
  { x := idxs.map (fun j => data.state.x.getD j 0)
    y := idxs.map (fun j => data.state.y.getD j 0)
    z := idxs.map (fun j => data.state.z.getD j 0)
    interaction_parameters :=
      (data.lookup_tables.interaction_parameters_table.drop start).take cnt }

/-- Embedding of `get_site_spin_vector` (heisenberg.py lines 80-91):
read the three spin components of a site into one vector. -/
def get_site_spin_vector (site_index : ℕ) (data : SimulationData) : Vec3 :=
  { x := data.state.x.getD site_index 0
    y := data.state.y.getD site_index 0
    z := data.state.z.getD site_index 0 }

/-- Embedding of `compute_energy_of_spin_vector_at_site`
(heisenberg.py lines 110-133): the numpy expression
`np.sum(J * (sx * X + sy * Y + sz * Z))` over the neighbor arrays,
with elementwise products and sums as `zipWith` and `map`. -/
def compute_energy_of_spin_vector_at_site
    (site_spin : Vec3) (site_index : ℕ) (data : SimulationData) : ℚ :=
  let ns := lookup_neighbor_states site_index data
  (List.zipWith (· * ·) ns.interaction_parameters
    (List.zipWith (· + ·)
      (List.zipWith (· + ·)
        (ns.x.map (fun t => site_spin.x * t))
        (ns.y.map (fun t => site_spin.y * t)))
      (ns.z.map (fun t => site_spin.z * t)))).sum

/-- Embedding of `compute_site_energy` (heisenberg.py lines 94-107):
the energy of a site is the trial energy of its own current spin. -/
def compute_site_energy (site_index : ℕ) (data : SimulationData) : ℚ :=
  compute_energy_of_spin_vector_at_site
    (get_site_spin_vector site_index data) site_index data

/-- Embedding of `compute_total_energy` (heisenberg.py lines 43-54):
accumulate every site's energy and halve the result. -/
def compute_total_energy (data : SimulationData) : ℚ :=
  (((List.range data.lookup_tables.number_sites).map
    (fun site_index => compute_site_energy site_index data)).sum) / 2

/-- Embedding of the boolean-mask reduction
`x[sublattice_indices == sublattice].sum()` used by
`sum_spin_vectors_within_sublattices`. -/
def masked_sum (xs : List ℚ) (tbl : List ℕ) (s : ℕ) : ℚ :=
  (((xs.zip tbl).filter (fun p => p.2 == s)).map Prod.fst).sum

/-- Embedding of `sum_spin_vectors_within_sublattices`
(heisenberg.py lines 57-77): one summed spin vector per sublattice. -/
def sum_spin_vectors_within_sublattices (data : SimulationData) : List Vec3 :=
  (List.range data.lookup_tables.number_sublattices).map (fun s =>
    { x := masked_sum data.state.x data.lookup_tables.sublattice_table s
      y := masked_sum data.state.y data.lookup_tables.sublattice_table s
      z := masked_sum data.state.z data.lookup_tables.sublattice_table s })

/-- Embedding of `save_full_state` (heisenberg.py lines 34-40): the two
in-place estimator writes `energy[0] = ...` and `spin_vector[:, :] = ...`
become a new `Estimators` value carried in the returned container. -/
def save_full_state (data : SimulationData) : SimulationData :=
  { data with
    estimators :=
      { energy := data.estimators.energy.set 0 (compute_total_energy data)
        spin_vector := sum_spin_vectors_within_sublattices data } }

/-- The dot product of two spin vectors. -/
def dot (a b : Vec3) : ℚ := a.x * b.x + a.y * b.y + a.z * b.z

/-- A directed bond record: origin site, target site, coupling. -/
abbrev Bond := ℕ × ℕ × ℚ

/-- The directed bonds contributed by one site: its neighbor-table block
paired with the aligned couplings, tagged with the origin site. -/
def siteBonds (data : SimulationData) (i : ℕ) : List Bond :=
  let cnt := data.lookup_tables.neighbors_count.getD i 0
  let start := data.lookup_tables.neighbors_lookup_index.getD i 0
  let idxs := (data.lookup_tables.neighbors_table.drop start).take cnt
  let js := (data.lookup_tables.interaction_parameters_table.drop start).take cnt
  (idxs.zip js).map (fun p => (i, p.1, p.2))

/-- All directed bonds recorded in the lookup tables. -/
def directedBonds (data : SimulationData) : List Bond :=
  (List.range data.lookup_tables.number_sites).flatMap (siteBonds data)

/-- The energy contribution of one directed bond in a given state. -/
def bondEnergy (data : SimulationData) (b : Bond) : ℚ :=
  b.2.2 * dot (get_site_spin_vector b.1 data) (get_site_spin_vector b.2.1 data)

/-- Reversing a directed bond. -/
def swapBond (b : Bond) : Bond := (b.2.1, b.1, b.2.2)

theorem getD_set_self {α : Type _} (l : List α) (i : ℕ) (v d : α) (h : i < l.length) :
    (l.set i v).getD i d = v := by
  induction l generalizing i with
  | nil => simp at h
  | cons a tl ih =>
    cases i with
    | zero => rfl
    | succ n => exact ih n (by simpa using h)

theorem getD_set_ne {α : Type _} (l : List α) (i k : ℕ) (v d : α) (h : i ≠ k) :
    (l.set i v).getD k d = l.getD k d := by
  induction l generalizing i k with
  | nil => simp
  | cons a tl ih =>
    cases i with
    | zero =>
      cases k with
      | zero => exact absurd rfl h
      | succ m => rfl
    | succ n =>
      cases k with
      | zero => rfl
      | succ m => exact ih n m (fun e => h (by rw [e]))

theorem getD_drop {α : Type _} (l : List α) (s k : ℕ) (d : α) :
    (l.drop s).getD k d = l.getD (s + k) d := by
  induction l generalizing s with
  | nil => simp
  | cons a tl ih =>
    cases s with
    | zero => simp
    | succ n =>
      have : n + 1 + k = (n + k) + 1 := by omega
      rw [this]
      exact ih n

theorem getD_take {α : Type _} (l : List α) (c k : ℕ) (d : α) (h : k < c) :
    (l.take c).getD k d = l.getD k d := by
  induction l generalizing c k with
  | nil => simp
  | cons a tl ih =>
    cases c with
    | zero => omega
    | succ n =>
      cases k with
      | zero => rfl
      | succ m => exact ih n m (by omega)

theorem getD_map {α β : Type _} (l : List α) (f : α → β) (k : ℕ) (d : β) (e : α)
    (h : k < l.length) :
    (l.map f).getD k d = f (l.getD k e) := by
  induction l generalizing k with
  | nil => simp at h
  | cons a tl ih =>
    cases k with
    | zero => rfl
    | succ m => exact ih m (by simpa using h)

theorem getD_zip {α β : Type _} (l : List α) (m : List β) (k : ℕ) (d1 : α) (d2 : β)
    (h1 : k < l.length) (h2 : k < m.length) :
    (l.zip m).getD k (d1, d2) = (l.getD k d1, m.getD k d2) := by
  induction l generalizing m k with
  | nil => simp at h1
  | cons a tl ih =>
    cases m with
    | nil => simp at h2
    | cons b tm =>
      cases k with
      | zero => rfl
      | succ n => exact ih tm n (by simpa using h1) (by simpa using h2)

theorem sum_map_sub {α : Type _} (l : List α) (f g : α → ℚ) :
    (l.map (fun b => f b - g b)).sum = (l.map f).sum - (l.map g).sum := by
  induction l with
  | nil => simp
  | cons a tl ih => simp [ih]; ring

theorem sum_map_flatMap {α β : Type _} (l : List α) (f : α → List β) (h : β → ℚ) :
    ((l.flatMap f).map h).sum = (l.map (fun a => ((f a).map h).sum)).sum := by
  induction l with
  | nil => simp
  | cons a tl ih => simp [List.flatMap_cons, ih]

theorem filter_flatMap {α β : Type _} (l : List α) (f : α → List β) (p : β → Bool) :
    (l.flatMap f).filter p = l.flatMap (fun a => (f a).filter p) := by
  induction l with
  | nil => simp
  | cons a tl ih => simp [List.flatMap_cons, List.filter_append, ih]

theorem flatMap_eq_of_single {β : Type _} (l : List ℕ) (i : ℕ) (g : ℕ → List β)
    (hnd : l.Nodup) (hmem : i ∈ l) (hg : ∀ k ∈ l, k ≠ i → g k = []) :
    l.flatMap g = g i := by
  induction l with
  | nil => simp at hmem
  | cons a tl ih =>
    rcases List.mem_cons.1 hmem with h | h
    · subst h
      have htl : tl.flatMap g = [] := by
        refine List.flatMap_eq_nil_iff.2 (fun k hk => hg k (List.mem_cons_of_mem _ hk) ?_)
        intro e
        exact (List.nodup_cons.1 hnd).1 (e ▸ hk)
      simp [List.flatMap_cons, htl]
    · have ha : g a = [] := by
        refine hg a (List.mem_cons_self a tl) ?_
        intro e
        exact (List.nodup_cons.1 hnd).1 (e ▸ h)
      simp [List.flatMap_cons, ha,
        ih (List.nodup_cons.1 hnd).2 h (fun k hk => hg k (List.mem_cons_of_mem _ hk))]

theorem sum_split {α : Type _} (l : List α) (p q : α → Bool) (h : α → ℚ)
    (hd : ∀ b ∈ l, p b = true → q b = false)
    (h0 : ∀ b ∈ l, p b = false → q b = false → h b = 0) :
    (l.map h).sum = ((l.filter p).map h).sum + ((l.filter q).map h).sum := by
  induction l with
  | nil => simp
  | cons a tl ih =>
    have ihtl := ih (fun b hb => hd b (List.mem_cons_of_mem _ hb))
      (fun b hb => h0 b (List.mem_cons_of_mem _ hb))
    cases hp : p a
    · cases hq : q a
      · have := h0 a (List.mem_cons_self a tl) hp hq
        simp [List.filter_cons, hp, hq, ihtl, this]
      · simp [List.filter_cons, hp, hq, ihtl]
        ring
    · have hq := hd a (List.mem_cons_self a tl) hp
      simp [List.filter_cons, hp, hq, ihtl]
      ring

theorem filter_map_comm {α β : Type _} (l : List α) (f : α → β) (p : β → Bool) :
    (l.map f).filter p = (l.filter (fun a => p (f a))).map f := by
  induction l with
  | nil => simp
  | cons a tl ih =>
    cases hp : p (f a) <;> simp [List.filter_cons, hp, ih]

theorem map_range'_getD {α : Type _} (f : ℕ → α) (d : α) :
    ∀ (len start k : ℕ), k < len →
      ((List.range' start len).map f).getD k d = f (start + k) := by
  intro len
  induction len with
  | zero => intro start k h; omega
  | succ n ih =>
    intro start k h
    cases k with
    | zero => simp [List.range']
    | succ m =>
      have : start + (m + 1) = (start + 1) + m := by omega
      rw [this]
      simpa [List.range'] using ih (start + 1) m (by omega)

theorem map_range_getD {α : Type _} (f : ℕ → α) (d : α) (n s : ℕ) (h : s < n) :
    ((List.range n).map f).getD s d = f s := by
  rw [List.range_eq_range']
  simpa using map_range'_getD f d n 0 s h

theorem sum_map_getD_range {α : Type _} (l : List α) (h : α → ℚ) (d : α) :
    (l.map h).sum = ∑ k in Finset.range l.length, h (l.getD k d) := by
  induction l with
  | nil => simp
  | cons a tl ih =>
    rw [show (a :: tl).length = tl.length + 1 from rfl, Finset.sum_range_succ']
    simp [ih]
    ring

theorem masked_sum_eq (s : ℕ) : ∀ (xs : List ℚ) (tbl : List ℕ),
    masked_sum xs tbl s
      = ∑ i in Finset.range (min xs.length tbl.length),
          (if tbl.getD i 0 = s then xs.getD i 0 else 0) := by
  intro xs
  induction xs with
  | nil => intro tbl; simp [masked_sum]
  | cons a as ih =>
    intro tbl
    cases tbl with
    | nil => simp [masked_sum]
    | cons t ts =>
      have hcons : masked_sum (a :: as) (t :: ts) s
          = (if t = s then a + masked_sum as ts s else masked_sum as ts s) := by
        by_cases h : t = s <;> simp [masked_sum, h]
      have hmin : min (a :: as).length (t :: ts).length = min as.length ts.length + 1 := by
        simp; omega
      rw [hmin, Finset.sum_range_succ', hcons, ih ts]
      by_cases h : t = s
      · simp [h, List.getD_cons_succ, List.getD_cons_zero]
        ring
      · simp [h, List.getD_cons_succ, List.getD_cons_zero]

theorem zip_energy_sum (v : Vec3) (fx fy fz : ℕ → ℚ) :
    ∀ (idxs : List ℕ) (js : List ℚ),
    (List.zipWith (· * ·) js
      (List.zipWith (· + ·)
        (List.zipWith (· + ·)
          ((idxs.map fx).map (fun t => v.x * t))
          ((idxs.map fy).map (fun t => v.y * t)))
        ((idxs.map fz).map (fun t => v.z * t)))).sum
    = ((idxs.zip js).map
        (fun p => p.2 * (v.x * fx p.1 + v.y * fy p.1 + v.z * fz p.1))).sum := by
  intro idxs
  induction idxs with
  | nil => intro js; simp
  | cons a tl ih =>
    intro js
    cases js with
    | nil => simp
    | cons j jtl =>
      simp only [List.map_cons, List.zipWith_cons_cons, List.sum_cons, List.zip_cons_cons,
        ih jtl]

theorem trial_energy_eq (v : Vec3) (i : ℕ) (data : SimulationData) :
    compute_energy_of_spin_vector_at_site v i data
      = ((siteBonds data i).map
          (fun b => b.2.2 * dot v (get_site_spin_vector b.2.1 data))).sum := by
  simp only [compute_energy_of_spin_vector_at_site, lookup_neighbor_states, siteBonds]
  rw [zip_energy_sum v (fun j => data.state.x.getD j 0) (fun j => data.state.y.getD j 0)
    (fun j => data.state.z.getD j 0)]
  simp only [List.map_map]
  exact congrArg List.sum (List.map_congr_left fun p _ => by
    simp [Function.comp, dot, get_site_spin_vector])

theorem siteBonds_origin {data : SimulationData} {i : ℕ} {b : Bond}
    (hb : b ∈ siteBonds data i) : b.1 = i := by
  simp only [siteBonds, List.mem_map] at hb
  obtain ⟨p, _, hp⟩ := hb
  rw [← hp]

theorem site_energy_eq_bonds (i : ℕ) (data : SimulationData) :
    compute_site_energy i data = ((siteBonds data i).map (bondEnergy data)).sum := by
  rw [compute_site_energy, trial_energy_eq]
  refine congrArg List.sum (List.map_congr_left fun b hb => ?_)
  rw [bondEnergy, siteBonds_origin hb]

theorem total_eq_directed (data : SimulationData) :
    compute_total_energy data = ((directedBonds data).map (bondEnergy data)).sum / 2 := by
  rw [compute_total_energy, directedBonds, sum_map_flatMap]
  congr 1
  exact congrArg List.sum (List.map_congr_left fun i _ => site_energy_eq_bonds i data)

theorem bondEnergy_swap (data : SimulationData) (b : Bond) :
    bondEnergy data (swapBond b) = bondEnergy data b := by
  simp only [bondEnergy, swapBond, dot]
  ring

/-- Claim C10: for every site and state, `compute_site_energy` coincides
with `compute_energy_of_spin_vector_at_site` applied to the site's own
current spin vector as read by `get_site_spin_vector` — in the source
the former is defined as exactly this call. -/
theorem site_energy_eq_trial_at_current_spin (i : ℕ) (data : SimulationData) :
    compute_site_energy i data
      = compute_energy_of_spin_vector_at_site (get_site_spin_vector i data) i data := rfl

/-- Claim C1: the total energy is exactly half the sum of all per-site
energies; and whenever the directed neighbor records decompose as a list
of undirected bonds `B`, each recorded once from either endpoint
(the LookupTables symmetry invariant), the total energy is the sum of
`J * (s_i . s_j)` over `B`, i.e. over each undirected bond exactly once. -/
theorem total_energy_halves_site_sum_and_counts_bonds_once
    (data : SimulationData) (B : List Bond)
    (hsym : (directedBonds data).Perm (B ++ B.map swapBond)) :
    compute_total_energy data
        = (((List.range data.lookup_tables.number_sites).map
            (fun i => compute_site_energy i data)).sum) / 2
      ∧ compute_total_energy data = (B.map (bondEnergy data)).sum := by
  refine ⟨rfl, ?_⟩
  rw [total_eq_directed]
  rw [(hsym.map (bondEnergy data)).sum_eq]
  rw [List.map_append, List.sum_append, List.map_map]
  have h2 : (B.map (bondEnergy data ∘ swapBond)).sum = (B.map (bondEnergy data)).sum :=
    congrArg List.sum (List.map_congr_left fun b _ => bondEnergy_swap data b)
  rw [h2]
  ring

/-- A concrete two-site state: both spins along the x axis. -/
def exState : HeisenbergState := ⟨[1, 1], [0, 0], [0, 0]⟩

/-- Concrete two-site tables: one undirected bond 0-1 with coupling 3,
recorded once from each endpoint. -/
def exTables : LookupTables := ⟨2, 2, [0, 1], [1, 1], [0, 1], [1, 0], [3, 3]⟩

/-- Concrete estimator container. -/
def exEstimators : Estimators := ⟨[0], [⟨0, 0, 0⟩, ⟨0, 0, 0⟩]⟩

/-- Concrete simulation data for witnesses. -/
def exData : SimulationData := ⟨exState, exTables, exEstimators⟩

/-- The undirected-bond list of `exTables`. -/
def exBonds : List Bond := [(0, 1, 3)]

theorem total_energy_halves_site_sum_and_counts_bonds_once_witness :
    (directedBonds exData).Perm (exBonds ++ exBonds.map swapBond)
      ∧ (compute_total_energy exData
            = (((List.range exData.lookup_tables.number_sites).map
                (fun i => compute_site_energy i exData)).sum) / 2
        ∧ compute_total_energy exData = (exBonds.map (bondEnergy exData)).sum) :=
  ⟨by decide, total_energy_halves_site_sum_and_counts_bonds_once exData exBonds (by decide)⟩

/-- Claim C3: a site's energy is the sum, over the half-open block
of its neighbor records, of the aligned coupling times the dot product
of its spin with the listed neighbor's spin. -/
theorem site_energy_eq_neighbor_block_sum (data : SimulationData) (i : ℕ)
    (h1 : data.lookup_tables.neighbors_lookup_index.getD i 0
        + data.lookup_tables.neighbors_count.getD i 0
        ≤ data.lookup_tables.neighbors_table.length)
    (h2 : data.lookup_tables.neighbors_lookup_index.getD i 0
        + data.lookup_tables.neighbors_count.getD i 0
        ≤ data.lookup_tables.interaction_parameters_table.length) :
    compute_site_energy i data
      = ∑ k in Finset.range (data.lookup_tables.neighbors_count.getD i 0),
          data.lookup_tables.interaction_parameters_table.getD
              (data.lookup_tables.neighbors_lookup_index.getD i 0 + k) 0
            * dot (get_site_spin_vector i data)
                (get_site_spin_vector
                  (data.lookup_tables.neighbors_table.getD
                    (data.lookup_tables.neighbors_lookup_index.getD i 0 + k) 0) data) := by
  rw [site_energy_eq_bonds]
  simp only [siteBonds, List.map_map]
  rw [sum_map_getD_range _ _ ((0 : ℕ), (0 : ℚ))]
  have hidx : (List.take (data.lookup_tables.neighbors_count.getD i 0)
      (List.drop (data.lookup_tables.neighbors_lookup_index.getD i 0)
        data.lookup_tables.neighbors_table)).length
      = data.lookup_tables.neighbors_count.getD i 0 := by
    rw [List.length_take, List.length_drop]
    omega
  have hjs : (List.take (data.lookup_tables.neighbors_count.getD i 0)
      (List.drop (data.lookup_tables.neighbors_lookup_index.getD i 0)
        data.lookup_tables.interaction_parameters_table)).length
      = data.lookup_tables.neighbors_count.getD i 0 := by
    rw [List.length_take, List.length_drop]
    omega
  have hzip : ((List.take (data.lookup_tables.neighbors_count.getD i 0)
      (List.drop (data.lookup_tables.neighbors_lookup_index.getD i 0)
        data.lookup_tables.neighbors_table)).zip
      (List.take (data.lookup_tables.neighbors_count.getD i 0)
        (List.drop (data.lookup_tables.neighbors_lookup_index.getD i 0)
          data.lookup_tables.interaction_parameters_table))).length
      = data.lookup_tables.neighbors_count.getD i 0 := by
    rw [List.length_zip, hidx, hjs, Nat.min_self]
  rw [hzip]
  refine Finset.sum_congr rfl fun k hk => ?_
  have hk1 : k < data.lookup_tables.neighbors_count.getD i 0 := Finset.mem_range.1 hk
  rw [getD_zip _ _ _ _ _ (by rw [hidx]; exact hk1) (by rw [hjs]; exact hk1)]
  rw [getD_take _ _ _ _ hk1, getD_drop, getD_take _ _ _ _ hk1, getD_drop]
  simp [Function.comp, bondEnergy]

theorem site_energy_eq_neighbor_block_sum_witness :
    (exData.lookup_tables.neighbors_lookup_index.getD 0 0
        + exData.lookup_tables.neighbors_count.getD 0 0
        ≤ exData.lookup_tables.neighbors_table.length)
      ∧ compute_site_energy 0 exData
          = ∑ k in Finset.range (exData.lookup_tables.neighbors_count.getD 0 0),
              exData.lookup_tables.interaction_parameters_table.getD
                  (exData.lookup_tables.neighbors_lookup_index.getD 0 0 + k) 0
                * dot (get_site_spin_vector 0 exData)
                    (get_site_spin_vector
                      (exData.lookup_tables.neighbors_table.getD
                        (exData.lookup_tables.neighbors_lookup_index.getD 0 0 + k) 0) exData) :=
  ⟨by decide, site_energy_eq_neighbor_block_sum exData 0 (by decide) (by decide)⟩

/-- Embedding of the Metropolis engine's accepted-move write path.
Modelled from the spec: `write_site(index, value)` (§4.2) applied by
MetropolisEngine on acceptance (§4.5 step 5); the engine itself is not
under src/.  The three component arrays are written in place at one
site. -/
def set_spin (data : SimulationData) (i : ℕ) (s : Vec3) : SimulationData :=
  { data with
    state :=
      { x := data.state.x.set i s.x
        y := data.state.y.set i s.y
        z := data.state.z.set i s.z } }

theorem get_spin_set_self (data : SimulationData) (i : ℕ) (s : Vec3)
    (hx : i < data.state.x.length) (hy : i < data.state.y.length)
    (hz : i < data.state.z.length) :
    get_site_spin_vector i (set_spin data i s) = s := by
  obtain ⟨sx, sy, sz⟩ := s
  simp only [get_site_spin_vector, set_spin]
  rw [getD_set_self _ _ _ _ hx, getD_set_self _ _ _ _ hy, getD_set_self _ _ _ _ hz]

theorem get_spin_set_ne (data : SimulationData) (i k : ℕ) (s : Vec3) (h : i ≠ k) :
    get_site_spin_vector k (set_spin data i s) = get_site_spin_vector k data := by
  simp only [get_site_spin_vector, set_spin]
  rw [getD_set_ne _ _ _ _ _ h, getD_set_ne _ _ _ _ _ h, getD_set_ne _ _ _ _ _ h]

/-- The change in one directed bond's energy contribution when site `i`
is overwritten with spin `s`. -/
def deltaBond (data : SimulationData) (i : ℕ) (s : Vec3) (b : Bond) : ℚ :=
  bondEnergy (set_spin data i s) b - bondEnergy data b

/-- Bond predicate: the origin site is `i`. -/
def originIs (i : ℕ) (b : Bond) : Bool := b.1 == i

/-- Bond predicate: the target site is `i`. -/
def targetIs (i : ℕ) (b : Bond) : Bool := b.2.1 == i

theorem deltaBond_swap (data : SimulationData) (i : ℕ) (s : Vec3) (b : Bond) :
    deltaBond data i s (swapBond b) = deltaBond data i s b := by
  simp only [deltaBond]
  rw [bondEnergy_swap, bondEnergy_swap]

theorem deltaBond_untouched (data : SimulationData) (i : ℕ) (s : Vec3) (b : Bond)
    (h1 : b.1 ≠ i) (h2 : b.2.1 ≠ i) : deltaBond data i s b = 0 := by
  simp only [deltaBond, bondEnergy]
  rw [get_spin_set_ne data i b.1 s (fun e => h1 e.symm),
    get_spin_set_ne data i b.2.1 s (fun e => h2 e.symm)]
  ring

theorem directed_filter_origin (data : SimulationData) (i : ℕ)
    (hi : i < data.lookup_tables.number_sites) :
    (directedBonds data).filter (originIs i) = siteBonds data i := by
  rw [directedBonds, filter_flatMap]
  rw [flatMap_eq_of_single (List.range data.lookup_tables.number_sites) i
    (fun k => (siteBonds data k).filter (originIs i))
    (List.nodup_range _) (List.mem_range.2 hi)
    (fun k _ hki => List.filter_eq_nil_iff.2 (fun b hb => by
      simp [originIs, siteBonds_origin hb, hki]))]
  exact List.filter_eq_self.2 fun b hb => by simp [originIs, siteBonds_origin hb]

theorem siteBonds_subset_directed {data : SimulationData} {i : ℕ} {b : Bond}
    (hi : i < data.lookup_tables.number_sites) (hb : b ∈ siteBonds data i) :
    b ∈ directedBonds data :=
  List.mem_flatMap.2 ⟨i, List.mem_range.2 hi, hb⟩

/-- Claim C2: with symmetric tables and no site listed as its own
neighbor, replacing one site's spin changes the total energy by exactly
the local trial-energy difference at that site. -/
theorem local_energy_difference_eq_global
    (data : SimulationData) (B : List Bond) (i : ℕ) (s : Vec3)
    (hx : data.state.x.length = data.lookup_tables.number_sites)
    (hy : data.state.y.length = data.lookup_tables.number_sites)
    (hz : data.state.z.length = data.lookup_tables.number_sites)
    (hi : i < data.lookup_tables.number_sites)
    (hsym : (directedBonds data).Perm (B ++ B.map swapBond))
    (hself : ∀ b ∈ directedBonds data, b.1 = i → b.2.1 ≠ i) :
    compute_total_energy (set_spin data i s) - compute_total_energy data
      = compute_energy_of_spin_vector_at_site s i data - compute_site_energy i data := by
  have hdb : directedBonds (set_spin data i s) = directedBonds data := rfl
  have hspin_i : get_site_spin_vector i (set_spin data i s) = s :=
    get_spin_set_self data i s (by omega) (by omega) (by omega)
  have h2tot : compute_total_energy (set_spin data i s) - compute_total_energy data
      = ((directedBonds data).map (deltaBond data i s)).sum / 2 := by
    have hmap : (List.map (deltaBond data i s) (directedBonds data)).sum
        = (List.map (bondEnergy (set_spin data i s)) (directedBonds data)).sum
          - (List.map (bondEnergy data) (directedBonds data)).sum :=
      sum_map_sub (directedBonds data) (bondEnergy (set_spin data i s)) (bondEnergy data)
    rw [total_eq_directed, total_eq_directed, hdb, hmap]
    ring
  have hsplit : ((directedBonds data).map (deltaBond data i s)).sum
      = (((directedBonds data).filter (originIs i)).map (deltaBond data i s)).sum
        + (((directedBonds data).filter (targetIs i)).map (deltaBond data i s)).sum := by
    refine sum_split _ _ _ _ ?_ ?_
    · intro b hb hpb
      have h1 : b.1 = i := by simpa [originIs] using hpb
      simpa [targetIs] using hself b hb h1
    · intro b hb hpb hqb
      refine deltaBond_untouched data i s b ?_ ?_
      · simpa [originIs] using hpb
      · simpa [targetIs] using hqb
  have e1 : (B.map swapBond).filter (targetIs i) = (B.filter (originIs i)).map swapBond := by
    rw [filter_map_comm]
    rfl
  have e2 : (B.map swapBond).filter (originIs i) = (B.filter (targetIs i)).map swapBond := by
    rw [filter_map_comm]
    rfl
  have hcs : ∀ (L : List Bond),
      (L.map (deltaBond data i s ∘ swapBond)).sum = (L.map (deltaBond data i s)).sum :=
    fun L => congrArg List.sum (List.map_congr_left fun b _ => deltaBond_swap data i s b)
  have hfilters : (((directedBonds data).filter (targetIs i)).map (deltaBond data i s)).sum
      = (((directedBonds data).filter (originIs i)).map (deltaBond data i s)).sum := by
    rw [((hsym.filter (targetIs i)).map (deltaBond data i s)).sum_eq,
      ((hsym.filter (originIs i)).map (deltaBond data i s)).sum_eq,
      List.filter_append, List.filter_append, e1, e2,
      List.map_append, List.map_append, List.sum_append, List.sum_append,
      List.map_map, List.map_map, hcs, hcs]
    ring
  have hterm1 : ((siteBonds data i).map (deltaBond data i s)).sum
      = compute_energy_of_spin_vector_at_site s i data - compute_site_energy i data := by
    rw [compute_site_energy, trial_energy_eq s i data,
      trial_energy_eq (get_site_spin_vector i data) i data, ← sum_map_sub]
    refine congrArg List.sum (List.map_congr_left fun b hb => ?_)
    have hbo : b.1 = i := siteBonds_origin hb
    have hbt : b.2.1 ≠ i := hself b (siteBonds_subset_directed hi hb) hbo
    simp only [deltaBond, bondEnergy, hbo]
    rw [hspin_i, get_spin_set_ne data i b.2.1 s (fun e => hbt e.symm)]
  rw [h2tot, hsplit, hfilters, directed_filter_origin data i hi, hterm1]
  ring

theorem local_energy_difference_eq_global_witness :
    (exData.state.x.length = exData.lookup_tables.number_sites
      ∧ exData.state.y.length = exData.lookup_tables.number_sites
      ∧ exData.state.z.length = exData.lookup_tables.number_sites
      ∧ 0 < exData.lookup_tables.number_sites
      ∧ (directedBonds exData).Perm (exBonds ++ exBonds.map swapBond)
      ∧ ∀ b ∈ directedBonds exData, b.1 = 0 → b.2.1 ≠ 0)
    ∧ compute_total_energy (set_spin exData 0 ⟨0, 1, 0⟩) - compute_total_energy exData
        = compute_energy_of_spin_vector_at_site ⟨0, 1, 0⟩ 0 exData
          - compute_site_energy 0 exData :=
  ⟨⟨by decide, by decide, by decide, by decide, by decide, by decide⟩,
    local_energy_difference_eq_global exData exBonds 0 ⟨0, 1, 0⟩
      (by decide) (by decide) (by decide) (by decide) (by decide) (by decide)⟩

/-- A 3x3 matrix of rationals, row major. -/
structure Mat3 where
  a11 : ℚ
  a12 : ℚ
  a13 : ℚ
  a21 : ℚ
  a22 : ℚ
  a23 : ℚ
  a31 : ℚ
  a32 : ℚ
  a33 : ℚ
deriving DecidableEq, Repr

/-- Matrix-vector product. -/
def mulVec (R : Mat3) (v : Vec3) : Vec3 :=
  { x := R.a11 * v.x + R.a12 * v.y + R.a13 * v.z
    y := R.a21 * v.x + R.a22 * v.y + R.a23 * v.z
    z := R.a31 * v.x + R.a32 * v.y + R.a33 * v.z }

/-- Orthogonality of a 3x3 matrix: its columns are orthonormal. -/
abbrev orthogonal (R : Mat3) : Prop :=
  R.a11 * R.a11 + R.a21 * R.a21 + R.a31 * R.a31 = 1
  ∧ R.a12 * R.a12 + R.a22 * R.a22 + R.a32 * R.a32 = 1
  ∧ R.a13 * R.a13 + R.a23 * R.a23 + R.a33 * R.a33 = 1
  ∧ R.a11 * R.a12 + R.a21 * R.a22 + R.a31 * R.a32 = 0
  ∧ R.a11 * R.a13 + R.a21 * R.a23 + R.a31 * R.a33 = 0
  ∧ R.a12 * R.a13 + R.a22 * R.a23 + R.a32 * R.a33 = 0

theorem dot_mulVec (R : Mat3) (a b : Vec3) (h : orthogonal R) :
    dot (mulVec R a) (mulVec R b) = dot a b := by
  obtain ⟨h1, h2, h3, h4, h5, h6⟩ := h
  simp only [dot, mulVec]
  linear_combination (a.x * b.x) * h1 + (a.y * b.y) * h2 + (a.z * b.z) * h3
    + (a.x * b.y + a.y * b.x) * h4 + (a.x * b.z + a.z * b.x) * h5
    + (a.y * b.z + a.z * b.y) * h6

/-- Applying a matrix uniformly to every site's spin vector. -/
def rotate_state (data : SimulationData) (R : Mat3) : SimulationData :=
  { data with state :=
    { x := (data.state.x.zip (data.state.y.zip data.state.z)).map
        (fun p => (mulVec R ⟨p.1, p.2.1, p.2.2⟩).x)
      y := (data.state.x.zip (data.state.y.zip data.state.z)).map
        (fun p => (mulVec R ⟨p.1, p.2.1, p.2.2⟩).y)
      z := (data.state.x.zip (data.state.y.zip data.state.z)).map
        (fun p => (mulVec R ⟨p.1, p.2.1, p.2.2⟩).z) } }

theorem rotate_getD (R : Mat3) : ∀ (xs ys zs : List ℚ) (k : ℕ),
    xs.length = ys.length → ys.length = zs.length →
    (Vec3.mk (((xs.zip (ys.zip zs)).map (fun p => (mulVec R ⟨p.1, p.2.1, p.2.2⟩).x)).getD k 0)
      (((xs.zip (ys.zip zs)).map (fun p => (mulVec R ⟨p.1, p.2.1, p.2.2⟩).y)).getD k 0)
      (((xs.zip (ys.zip zs)).map (fun p => (mulVec R ⟨p.1, p.2.1, p.2.2⟩).z)).getD k 0))
      = mulVec R ⟨xs.getD k 0, ys.getD k 0, zs.getD k 0⟩ := by
  intro xs
  induction xs with
  | nil =>
    intro ys zs k h1 h2
    cases ys with
    | cons b yt => simp at h1
    | nil =>
      cases zs with
      | cons c zt => simp at h2
      | nil => simp [mulVec]
  | cons a xt ih =>
    intro ys zs k h1 h2
    cases ys with
    | nil => simp at h1
    | cons b yt =>
      cases zs with
      | nil => simp at h2
      | cons c zt =>
        cases k with
        | zero => rfl
        | succ m => exact ih yt zt m (by simpa using h1) (by simpa using h2)

theorem get_spin_rotate (data : SimulationData) (R : Mat3) (k : ℕ)
    (h1 : data.state.x.length = data.state.y.length)
    (h2 : data.state.y.length = data.state.z.length) :
    get_site_spin_vector k (rotate_state data R)
      = mulVec R (get_site_spin_vector k data) := by
  simp only [get_site_spin_vector, rotate_state]
  exact rotate_getD R data.state.x data.state.y data.state.z k h1 h2

/-- Claim C5: the total energy is invariant under a global orthogonal
transformation applied uniformly to every site's spin vector. -/
theorem total_energy_rotation_invariant (data : SimulationData) (R : Mat3)
    (hR : orthogonal R)
    (h1 : data.state.x.length = data.state.y.length)
    (h2 : data.state.y.length = data.state.z.length) :
    compute_total_energy (rotate_state data R) = compute_total_energy data := by
  have hdb : directedBonds (rotate_state data R) = directedBonds data := rfl
  rw [total_eq_directed, total_eq_directed, hdb]
  congr 1
  refine congrArg List.sum (List.map_congr_left fun b _ => ?_)
  simp only [bondEnergy]
  rw [get_spin_rotate data R b.1 h1 h2, get_spin_rotate data R b.2.1 h1 h2,
    dot_mulVec R _ _ hR]

/-- A quarter-turn rotation about the z axis. -/
def exRot : Mat3 := ⟨0, -1, 0, 1, 0, 0, 0, 0, 1⟩

theorem total_energy_rotation_invariant_witness :
    (orthogonal exRot
      ∧ exData.state.x.length = exData.state.y.length
      ∧ exData.state.y.length = exData.state.z.length)
    ∧ compute_total_energy (rotate_state exData exRot) = compute_total_energy exData :=
  ⟨⟨by simp [orthogonal, exRot], rfl, rfl⟩,
    total_energy_rotation_invariant exData exRot (by simp [orthogonal, exRot]) rfl rfl⟩

theorem getD_set_zero (l : List ℚ) (v : ℚ) (h : l ≠ []) :
    (l.set 0 v).getD 0 0 = v := by
  cases l with
  | nil => exact absurd rfl h
  | cons a tl => rfl

/-- Claim C6: on a sampling event `save_full_state` writes the current
total energy into the energy estimator slot, and writes, for every
sublattice `s`, the componentwise sum of the spin vectors of exactly
those sites whose `sublattice_table` entry equals `s`. -/
theorem save_full_state_sets_energy_and_sublattice_sums
    (data : SimulationData) (s : ℕ)
    (hs : s < data.lookup_tables.number_sublattices)
    (hE : data.estimators.energy ≠ [])
    (hx : data.state.x.length = data.lookup_tables.sublattice_table.length)
    (hy : data.state.y.length = data.lookup_tables.sublattice_table.length)
    (hz : data.state.z.length = data.lookup_tables.sublattice_table.length) :
    (save_full_state data).estimators.energy.getD 0 0 = compute_total_energy data
    ∧ (save_full_state data).estimators.spin_vector.getD s ⟨0, 0, 0⟩
        = ⟨∑ i in Finset.range data.lookup_tables.sublattice_table.length,
             (if data.lookup_tables.sublattice_table.getD i 0 = s
              then data.state.x.getD i 0 else 0),
           ∑ i in Finset.range data.lookup_tables.sublattice_table.length,
             (if data.lookup_tables.sublattice_table.getD i 0 = s
              then data.state.y.getD i 0 else 0),
           ∑ i in Finset.range data.lookup_tables.sublattice_table.length,
             (if data.lookup_tables.sublattice_table.getD i 0 = s
              then data.state.z.getD i 0 else 0)⟩ := by
  constructor
  · simp only [save_full_state]
    exact getD_set_zero _ _ hE
  · simp only [save_full_state, sum_spin_vectors_within_sublattices]
    rw [map_range_getD _ _ _ _ hs]
    have ex : masked_sum data.state.x data.lookup_tables.sublattice_table s
        = ∑ i in Finset.range data.lookup_tables.sublattice_table.length,
            (if data.lookup_tables.sublattice_table.getD i 0 = s
             then data.state.x.getD i 0 else 0) := by
      rw [masked_sum_eq s data.state.x data.lookup_tables.sublattice_table, hx, Nat.min_self]
    have ey : masked_sum data.state.y data.lookup_tables.sublattice_table s
        = ∑ i in Finset.range data.lookup_tables.sublattice_table.length,
            (if data.lookup_tables.sublattice_table.getD i 0 = s
             then data.state.y.getD i 0 else 0) := by
      rw [masked_sum_eq s data.state.y data.lookup_tables.sublattice_table, hy, Nat.min_self]
    have ez : masked_sum data.state.z data.lookup_tables.sublattice_table s
        = ∑ i in Finset.range data.lookup_tables.sublattice_table.length,
            (if data.lookup_tables.sublattice_table.getD i 0 = s
             then data.state.z.getD i 0 else 0) := by
      rw [masked_sum_eq s data.state.z data.lookup_tables.sublattice_table, hz, Nat.min_self]
    rw [ex, ey, ez]

theorem save_full_state_sets_energy_and_sublattice_sums_witness :
    (0 < exData.lookup_tables.number_sublattices
      ∧ exData.estimators.energy ≠ []
      ∧ exData.state.x.length = exData.lookup_tables.sublattice_table.length)
    ∧ ((save_full_state exData).estimators.energy.getD 0 0 = compute_total_energy exData
      ∧ (save_full_state exData).estimators.spin_vector.getD 0 ⟨0, 0, 0⟩
          = ⟨∑ i in Finset.range exData.lookup_tables.sublattice_table.length,
               (if exData.lookup_tables.sublattice_table.getD i 0 = 0
                then exData.state.x.getD i 0 else 0),
             ∑ i in Finset.range exData.lookup_tables.sublattice_table.length,
               (if exData.lookup_tables.sublattice_table.getD i 0 = 0
                then exData.state.y.getD i 0 else 0),
             ∑ i in Finset.range exData.lookup_tables.sublattice_table.length,
               (if exData.lookup_tables.sublattice_table.getD i 0 = 0
                then exData.state.z.getD i 0 else 0)⟩) :=
  ⟨⟨by decide, by decide, by decide⟩,
    save_full_state_sets_energy_and_sublattice_sums exData 0
      (by decide) (by decide) (by decide) (by decide) (by decide)⟩

/-- A Heisenberg state over the reals, for the trigonometric sampler. -/
structure HeisenbergStateR where
  x : List ℝ
  y : List ℝ
  z : List ℝ

/-- Embedding of `sample_random_state` (heisenberg.py lines 19-31) with
the two uniform draw vectors passed explicitly: `u` holds the draws of
`np.random.uniform(size=number_sites)` (values in `[0,1)`) and `w` the
raw draws behind `np.random.uniform(low=-1, high=1, size=number_sites)`
before the affine map to `[-1,1)`; then `theta = 2*pi*u`,
`phi = arccos(-1 + 2*w)`, and the state is
`(sin(phi)*cos(theta), sin(phi)*sin(theta), cos(phi))` sitewise. -/
noncomputable def sample_random_state_r (u w : List ℝ) : HeisenbergStateR :=
  let theta := u.map (fun t => 2 * Real.pi * t)
  let phi := (w.map (fun t => -1 + 2 * t)).map Real.arccos
  { x := (phi.zip theta).map (fun p => Real.sin p.1 * Real.cos p.2)
    y := (phi.zip theta).map (fun p => Real.sin p.1 * Real.sin p.2)
    z := phi.map Real.cos }

theorem sample_random_state_r_components (u w : List ℝ) (i : ℕ)
    (hiu : i < u.length) (hiw : i < w.length) :
    (sample_random_state_r u w).x.getD i 0
      = Real.sin (Real.arccos (-1 + 2 * w.getD i 0))
        * Real.cos (2 * Real.pi * u.getD i 0)
    ∧ (sample_random_state_r u w).y.getD i 0
      = Real.sin (Real.arccos (-1 + 2 * w.getD i 0))
        * Real.sin (2 * Real.pi * u.getD i 0)
    ∧ (sample_random_state_r u w).z.getD i 0
      = Real.cos (Real.arccos (-1 + 2 * w.getD i 0)) := by
  simp only [sample_random_state_r]
  have hphi : i < ((w.map (fun t => -1 + 2 * t)).map Real.arccos).length := by
    simpa using hiw
  have htheta : i < (u.map (fun t => 2 * Real.pi * t)).length := by
    simpa using hiu
  have hzip : i < (((w.map (fun t => -1 + 2 * t)).map Real.arccos).zip
      (u.map (fun t => 2 * Real.pi * t))).length := by
    rw [List.length_zip]
    omega
  have hphiv : ((w.map (fun t => -1 + 2 * t)).map Real.arccos).getD i 0
      = Real.arccos (-1 + 2 * w.getD i 0) := by
    rw [getD_map _ _ _ _ (0 : ℝ) (by simpa using hiw),
      getD_map _ _ _ _ (0 : ℝ) hiw]
  have hthetav : (u.map (fun t => 2 * Real.pi * t)).getD i 0
      = 2 * Real.pi * u.getD i 0 := by
    rw [getD_map _ _ _ _ (0 : ℝ) hiu]
  refine ⟨?_, ?_, ?_⟩
  · rw [getD_map _ _ _ _ ((0 : ℝ), (0 : ℝ)) hzip,
      getD_zip _ _ _ _ _ hphi htheta, hphiv, hthetav]
  · rw [getD_map _ _ _ _ ((0 : ℝ), (0 : ℝ)) hzip,
      getD_zip _ _ _ _ _ hphi htheta, hphiv, hthetav]
  · rw [getD_map _ _ _ _ (0 : ℝ) hphi, hphiv]

/-- Claim C4: the sampled Heisenberg state has component arrays of
length `number_sites`, every site's vector is built as
`(sin(phi)*cos(theta), sin(phi)*sin(theta), cos(phi))` with
`theta = 2*pi*uniform` and `phi = arccos` of a `[-1,1)` uniform value,
and its squared norm is exactly 1 at every site. -/
theorem sample_random_state_unit_norm (u w : List ℝ) (n : ℕ)
    (hu : u.length = n) (hw : w.length = n) :
    (sample_random_state_r u w).x.length = n
    ∧ (sample_random_state_r u w).y.length = n
    ∧ (sample_random_state_r u w).z.length = n
    ∧ (∀ i < n,
        (sample_random_state_r u w).x.getD i 0
            = Real.sin (Real.arccos (-1 + 2 * w.getD i 0))
              * Real.cos (2 * Real.pi * u.getD i 0)
          ∧ (sample_random_state_r u w).y.getD i 0
            = Real.sin (Real.arccos (-1 + 2 * w.getD i 0))
              * Real.sin (2 * Real.pi * u.getD i 0)
          ∧ (sample_random_state_r u w).z.getD i 0
            = Real.cos (Real.arccos (-1 + 2 * w.getD i 0)))
    ∧ (∀ i < n,
        ((sample_random_state_r u w).x.getD i 0) ^ 2
          + ((sample_random_state_r u w).y.getD i 0) ^ 2
          + ((sample_random_state_r u w).z.getD i 0) ^ 2 = 1) := by
  have hx : (sample_random_state_r u w).x.length = n := by
    simp [sample_random_state_r, hu, hw]
  have hy : (sample_random_state_r u w).y.length = n := by
    simp [sample_random_state_r, hu, hw]
  have hz : (sample_random_state_r u w).z.length = n := by
    simp [sample_random_state_r, hw]
  refine ⟨hx, hy, hz, ?_, ?_⟩
  · intro i hi
    exact sample_random_state_r_components u w i (by omega) (by omega)
  · intro i hi
    obtain ⟨ex, ey, ez⟩ := sample_random_state_r_components u w i (by omega) (by omega)
    rw [ex, ey, ez]
    have h1 := Real.sin_sq_add_cos_sq (2 * Real.pi * u.getD i 0)
    have h2 := Real.sin_sq_add_cos_sq (Real.arccos (-1 + 2 * w.getD i 0))
    linear_combination (Real.sin (Real.arccos (-1 + 2 * w.getD i 0))) ^ 2 * h1 + h2

theorem sample_random_state_unit_norm_witness :
    ([(0 : ℝ)].length = 1 ∧ [(1 : ℝ)].length = 1)
    ∧ ((sample_random_state_r [(0 : ℝ)] [(1 : ℝ)]).x.length = 1
      ∧ (sample_random_state_r [(0 : ℝ)] [(1 : ℝ)]).y.length = 1
      ∧ (sample_random_state_r [(0 : ℝ)] [(1 : ℝ)]).z.length = 1
      ∧ (∀ i < 1,
          (sample_random_state_r [(0 : ℝ)] [(1 : ℝ)]).x.getD i 0
              = Real.sin (Real.arccos (-1 + 2 * [(1 : ℝ)].getD i 0))
                * Real.cos (2 * Real.pi * [(0 : ℝ)].getD i 0)
            ∧ (sample_random_state_r [(0 : ℝ)] [(1 : ℝ)]).y.getD i 0
              = Real.sin (Real.arccos (-1 + 2 * [(1 : ℝ)].getD i 0))
                * Real.sin (2 * Real.pi * [(0 : ℝ)].getD i 0)
            ∧ (sample_random_state_r [(0 : ℝ)] [(1 : ℝ)]).z.getD i 0
              = Real.cos (Real.arccos (-1 + 2 * [(1 : ℝ)].getD i 0)))
      ∧ (∀ i < 1,
          ((sample_random_state_r [(0 : ℝ)] [(1 : ℝ)]).x.getD i 0) ^ 2
            + ((sample_random_state_r [(0 : ℝ)] [(1 : ℝ)]).y.getD i 0) ^ 2
            + ((sample_random_state_r [(0 : ℝ)] [(1 : ℝ)]).z.getD i 0) ^ 2 = 1)) :=
  ⟨⟨rfl, rfl⟩, sample_random_state_unit_norm [(0 : ℝ)] [(1 : ℝ)] 1 rfl rfl⟩

/-- Embedding of `sample_random_state` as it actually executes: the two
`np.random.uniform` calls in heisenberg.py lines 25-26 draw from the
process-wide `np.random` generator, modelled here as the hidden stream
`g` of its future uniform draws in `[0,1)`; the call consumes
`2*number_sites` draws from that shared stream and leaves the advanced
stream behind. -/
noncomputable def sample_random_state_np_global (g : List ℝ) (number_sites : ℕ) :
    HeisenbergStateR × List ℝ :=
  (sample_random_state_r (g.take number_sites)
      ((g.drop number_sites).take number_sites),
    (g.drop number_sites).drop number_sites)

/-- Claim C7, evaluated on the code: `sample_random_state` called with
the same explicit argument (`number_sites = 1`) returns different states
for different hidden positions of the process-wide `np.random` stream,
so its draws do not depend only on an explicitly owned per-run
generator passed to it — no such generator is passed at all. -/
theorem sample_random_state_depends_on_global_stream :
    (sample_random_state_np_global [0, 1] 1).1.z
      ≠ (sample_random_state_np_global [0, 1 / 2] 1).1.z := by
  have h1 : Real.cos (Real.arccos (-1 + 2 * 1)) = 1 := by
    rw [show (-1 + 2 * 1 : ℝ) = 1 by norm_num, Real.arccos_one, Real.cos_zero]
  have h2 : Real.cos (Real.arccos (-1 + 2 * (1 / 2 : ℝ))) = 0 := by
    rw [Real.cos_arccos (by norm_num) (by norm_num)]
    norm_num
  simp only [sample_random_state_np_global, sample_random_state_r]
  simp only [List.take_succ_cons, List.take_zero, List.drop_succ_cons, List.drop_zero,
    List.map_cons, List.map_nil, h1, h2]
  simp

/-- Python/numpy scalar indexing on an array: a nonnegative index must
be below the length, a negative index wraps to `length + i`, and any
other index raises `IndexError`, modelled as `none`. -/
def pyIdx {α : Type _} (l : List α) (i : ℤ) : Option α :=
  if 0 ≤ i then l.get? i.toNat
  else if 0 ≤ i + l.length then l.get? (i + l.length).toNat
  else none

/-- Embedding of `get_site_spin_vector` under full Python/numpy indexing
semantics (negative wrap-around, `IndexError` as `none`), for the
out-of-range behaviour claim. -/
def get_site_spin_vector_py (site_index : ℤ) (data : SimulationData) : Option Vec3 := do
  let a ← pyIdx data.state.x site_index
  let b ← pyIdx data.state.y site_index
  let c ← pyIdx data.state.z site_index
  pure ⟨a, b, c⟩

/-- Embedding of `lookup_neighbor_states` under full Python/numpy
indexing semantics: the scalar reads of `neighbors_count` and
`neighbors_lookup_index` follow Python indexing, the slices clamp and
never fail, and the fancy gather `state.x[neighbor_indices]` fails iff a
gathered index is out of bounds. -/
def lookup_neighbor_states_py (site_index : ℤ) (data : SimulationData) :
    Option NeighborStates := do
  let cnt ← pyIdx data.lookup_tables.neighbors_count site_index
  let start ← pyIdx data.lookup_tables.neighbors_lookup_index site_index
  let idxs := (data.lookup_tables.neighbors_table.drop start).take cnt
  let xs ← idxs.mapM (fun j => data.state.x.get? j)
  let ys ← idxs.mapM (fun j => data.state.y.get? j)
  let zs ← idxs.mapM (fun j => data.state.z.get? j)
  pure ⟨xs, ys, zs,
    (data.lookup_tables.interaction_parameters_table.drop start).take cnt⟩

theorem pyIdx_none {α : Type _} (l : List α) (i : ℤ)
    (h : (l.length : ℤ) ≤ i ∨ i + l.length < 0) : pyIdx l i = none := by
  rcases h with h | h
  · rw [pyIdx, if_pos (by omega)]
    refine List.get?_eq_none.2 ?_
    omega
  · rw [pyIdx, if_neg (by omega), if_neg (by omega)]

theorem pyIdx_wrap {α : Type _} (l : List α) (i : ℤ)
    (h1 : i < 0) (h2 : 0 ≤ i + l.length) :
    pyIdx l i = l.get? (i + l.length).toNat := by
  rw [pyIdx, if_neg (by omega), if_pos h2]

theorem pyIdx_nonneg {α : Type _} (l : List α) (i : ℤ) (h : 0 ≤ i) :
    pyIdx l i = l.get? i.toNat := by
  rw [pyIdx, if_pos h]

/-- Claim C8 is false on the code at a negative index: numpy interprets
negative indices by wrap-around, so `get_site_spin_vector(-1)` on the
two-site example returns the last site's spin vector, and
`lookup_neighbor_states(-1)` also returns a value — neither fails. -/
theorem negative_index_lookup_returns_value :
    get_site_spin_vector_py (-1) exData = some ⟨1, 0, 0⟩
    ∧ (lookup_neighbor_states_py (-1) exData).isSome = true := by
  decide

/-- Claim C8 amended: a site index that is out of range on the numpy
side — `i ≥ number_sites` or `i < -number_sites` — makes both
`get_site_spin_vector` and `lookup_neighbor_states` fail fast with
`IndexError` (no value); but a negative index with
`-number_sites ≤ i < 0` does not fail: Python/numpy wraps it around to
site `number_sites + i`. -/
theorem lookup_out_of_range_py (data : SimulationData) (i : ℤ)
    (hx : data.state.x.length = data.lookup_tables.number_sites)
    (hy : data.state.y.length = data.lookup_tables.number_sites)
    (hz : data.state.z.length = data.lookup_tables.number_sites)
    (hc : data.lookup_tables.neighbors_count.length = data.lookup_tables.number_sites)
    (hl : data.lookup_tables.neighbors_lookup_index.length
        = data.lookup_tables.number_sites) :
    (((data.lookup_tables.number_sites : ℤ) ≤ i
        ∨ i < -(data.lookup_tables.number_sites : ℤ)) →
      get_site_spin_vector_py i data = none
      ∧ lookup_neighbor_states_py i data = none)
    ∧ (-(data.lookup_tables.number_sites : ℤ) ≤ i → i < 0 →
      get_site_spin_vector_py i data
        = get_site_spin_vector_py (i + data.lookup_tables.number_sites) data) := by
  constructor
  · intro h
    have hxn : pyIdx data.state.x i = none := pyIdx_none _ _ (by omega)
    have hcn : pyIdx data.lookup_tables.neighbors_count i = none :=
      pyIdx_none _ _ (by omega)
    constructor
    · rw [get_site_spin_vector_py, hxn]
      rfl
    · rw [lookup_neighbor_states_py, hcn]
      rfl
  · intro h1 h2
    have ex : pyIdx data.state.x i = pyIdx data.state.x (i + data.lookup_tables.number_sites) := by
      rw [pyIdx_wrap _ _ h2 (by omega), pyIdx_nonneg _ _ (by omega), hx]
    have ey : pyIdx data.state.y i = pyIdx data.state.y (i + data.lookup_tables.number_sites) := by
      rw [pyIdx_wrap _ _ h2 (by omega), pyIdx_nonneg _ _ (by omega), hy]
    have ez : pyIdx data.state.z i = pyIdx data.state.z (i + data.lookup_tables.number_sites) := by
      rw [pyIdx_wrap _ _ h2 (by omega), pyIdx_nonneg _ _ (by omega), hz]
    rw [get_site_spin_vector_py, get_site_spin_vector_py, ex, ey, ez]

theorem lookup_out_of_range_py_witness :
    (exData.state.x.length = exData.lookup_tables.number_sites
      ∧ exData.state.y.length = exData.lookup_tables.number_sites
      ∧ exData.state.z.length = exData.lookup_tables.number_sites
      ∧ exData.lookup_tables.neighbors_count.length = exData.lookup_tables.number_sites
      ∧ exData.lookup_tables.neighbors_lookup_index.length
          = exData.lookup_tables.number_sites)
    ∧ ((((exData.lookup_tables.number_sites : ℤ) ≤ 2
          ∨ (2 : ℤ) < -(exData.lookup_tables.number_sites : ℤ)) →
        get_site_spin_vector_py 2 exData = none
        ∧ lookup_neighbor_states_py 2 exData = none)
      ∧ (-(exData.lookup_tables.number_sites : ℤ) ≤ 2 → (2 : ℤ) < 0 →
        get_site_spin_vector_py 2 exData
          = get_site_spin_vector_py (2 + exData.lookup_tables.number_sites) exData)) :=
  ⟨⟨by decide, by decide, by decide, by decide, by decide⟩,
    lookup_out_of_range_py exData 2 (by decide) (by decide) (by decide)
      (by decide) (by decide)⟩

/-- Effectful form of `compute_total_energy`: its body performs no
assignment to `data`, so the state-threaded translation pairs the
result with the state unchanged. -/
def compute_total_energyM (data : SimulationData) : ℚ × SimulationData :=
  (compute_total_energy data, data)

/-- Effectful form of `compute_site_energy`: no assignment in the body. -/
def compute_site_energyM (site_index : ℕ) (data : SimulationData) : ℚ × SimulationData :=
  (compute_site_energy site_index data, data)

/-- Effectful form of `compute_energy_of_spin_vector_at_site`: no
assignment in the body. -/
def compute_energy_of_spin_vector_at_siteM (site_spin : Vec3) (site_index : ℕ)
    (data : SimulationData) : ℚ × SimulationData :=
  (compute_energy_of_spin_vector_at_site site_spin site_index data, data)

/-- Effectful form of `lookup_neighbor_states`: no assignment in the
body (numpy slices are read-only views here, never written through). -/
def lookup_neighbor_statesM (site_index : ℕ) (data : SimulationData) :
    NeighborStates × SimulationData :=
  (lookup_neighbor_states site_index data, data)

/-- Effectful form of `sum_spin_vectors_within_sublattices`: the body
allocates and writes only its local output array, never `data`. -/
def sum_spin_vectors_within_sublatticesM (data : SimulationData) :
    List Vec3 × SimulationData :=
  (sum_spin_vectors_within_sublattices data, data)

/-- Claim C9: every energy and estimator evaluator threads the
simulation state through unchanged; `save_full_state` rewrites only the
estimators, leaving spin state and lookup tables intact; and the
accepted-move write path (`set_spin`, the spec's `write_site` applied by
the Metropolis engine, which is not under src/) writes exactly the three
spin component arrays at the chosen site and nothing else. -/
theorem evaluators_do_not_mutate_state_or_tables
    (data : SimulationData) (i : ℕ) (v : Vec3) (s : Vec3) :
    (compute_total_energyM data).2 = data
    ∧ (compute_site_energyM i data).2 = data
    ∧ (compute_energy_of_spin_vector_at_siteM v i data).2 = data
    ∧ (lookup_neighbor_statesM i data).2 = data
    ∧ (sum_spin_vectors_within_sublatticesM data).2 = data
    ∧ (save_full_state data).state = data.state
    ∧ (save_full_state data).lookup_tables = data.lookup_tables
    ∧ (set_spin data i s).lookup_tables = data.lookup_tables
    ∧ (set_spin data i s).estimators = data.estimators
    ∧ (set_spin data i s).state.x = data.state.x.set i s.x
    ∧ (set_spin data i s).state.y = data.state.y.set i s.y
    ∧ (set_spin data i s).state.z = data.state.z.set i s.z :=
  ⟨rfl, rfl, rfl, rfl, rfl, rfl, rfl, rfl, rfl, rfl, rfl, rfl⟩

end Spyns
